import Mathlib

/-
Verification of the trade_bgot paper-trading and backtest engine.

The definitions below are a shallow embedding of the Python sources:
  backend/paper_trading/portfolio.py     (PortfolioManager, Position, ClosedTrade)
  backend/paper_trading/order_manager.py (OrderManager, Order)
  backend/paper_trading/risk_manager.py  (RiskManager.check_order_risk)
  backend/paper_trading/engine.py        (PaperTradingEngine tick processing)
  backend/backtest/engine.py             (BacktestEngine.run_backtest and metrics)
  backend/api/routes/backtest.py         (the 50-bar data guard of the backtest task)

Conventions of the embedding:
  * Python floats are modelled as rationals (ℚ); `a / 0 = 0` in Lean, branches
    where Python would divide by zero are guarded exactly as in the source.
  * Python dicts are modelled as association lists in insertion order; `alistSet`
    updates in place or appends, `alistRemove` deletes, mirroring dict semantics
    for the unique-key states dicts always have.
  * datetime bookkeeping fields (created_at, updated_at, filled_at, opened_at,
    closed_at) carry no trading logic and are omitted from the records; where a
    timestamp participates in arithmetic (backtest trade durations) it is kept
    as a rational number of hours.
  * log statements and the best-effort audit-logger calls are no-ops for the
    accounting state and are omitted.
-/

namespace TradeBgot

/-! ### Association-list model of Python dicts -/

def alistGet {α : Type} (l : List (String × α)) (k : String) : Option α :=
  match l with
  | [] => none
  | (k', v) :: rest => if k' = k then some v else alistGet rest k

def alistSet {α : Type} (l : List (String × α)) (k : String) (v : α) : List (String × α) :=
  match l with
  | [] => [(k, v)]
  | (k', v') :: rest => if k' = k then (k, v) :: rest else (k', v') :: alistSet rest k v

def alistRemove {α : Type} (l : List (String × α)) (k : String) : List (String × α) :=
  match l with
  | [] => []
  | (k', v') :: rest => if k' = k then rest else (k', v') :: alistRemove rest k

/-! ### Portfolio data model (backend/paper_trading/portfolio.py) -/

structure Position where
  symbol : String
  quantity : ℚ
  avg_entry_price : ℚ
  current_price : ℚ := 0
  unrealized_pnl : ℚ := 0
  unrealized_pnl_pct : ℚ := 0
  market_value : ℚ := 0
  cost_basis : ℚ := 0
deriving Repr, DecidableEq

/-- Position.update_price: recompute market value, cost basis and unrealized P&L. -/
def Position.update_price (pos : Position) (current_price : ℚ) : Position :=
  let market_value := pos.quantity * current_price
  let cost_basis := pos.quantity * pos.avg_entry_price
  let unrealized_pnl := market_value - cost_basis
  { pos with
    current_price := current_price
    market_value := market_value
    cost_basis := cost_basis
    unrealized_pnl := unrealized_pnl
    unrealized_pnl_pct := if cost_basis > 0 then unrealized_pnl / cost_basis * 100 else 0 }

structure ClosedTrade where
  symbol : String
  quantity : ℚ
  entry_price : ℚ
  exit_price : ℚ
  realized_pnl : ℚ
  realized_pnl_pct : ℚ
  commission : ℚ
deriving Repr, DecidableEq

inductive PFError where
  | insufficientCash
  | noPosition
  | overClose
deriving Repr, DecidableEq

instance {ε α : Type} [DecidableEq ε] [DecidableEq α] : DecidableEq (Except ε α) := fun x y =>
  match x, y with
  | .ok a, .ok b => if h : a = b then isTrue (by rw [h]) else isFalse (by simp [h])
  | .error a, .error b => if h : a = b then isTrue (by rw [h]) else isFalse (by simp [h])
  | .ok _, .error _ => isFalse (by simp)
  | .error _, .ok _ => isFalse (by simp)

structure PortfolioState where
  initial_capital : ℚ
  cash : ℚ
  positions : List (String × Position)
  closed_trades : List ClosedTrade
  total_commission_paid : ℚ
deriving Repr, DecidableEq

def PortfolioState.start (initial_capital : ℚ) : PortfolioState :=
  { initial_capital := initial_capital
    cash := initial_capital
    positions := []
    closed_trades := []
    total_commission_paid := 0 }

/-- PortfolioManager.open_position. The Python method raises ValueError before any
mutation when `cost > cash`; the pair returned here carries the state after the
mutations performed up to the exit point, so the error case returns the input
state unchanged. -/
def open_position (s : PortfolioState) (symbol : String) (quantity price commission : ℚ) :
    PortfolioState × Except PFError Position :=
  let cost := |quantity * price| + commission
  if cost > s.cash then (s, .error .insufficientCash)
  else
    let s1 := { s with
      cash := s.cash - cost
      total_commission_paid := s.total_commission_paid + commission }
    match alistGet s1.positions symbol with
    | some pos =>
        let new_quantity := pos.quantity + quantity
        let new_cost_basis := pos.cost_basis + quantity * price
        let new_avg_price := if new_quantity ≠ 0 then new_cost_basis / new_quantity else 0
        let pos1 := { pos with
          quantity := new_quantity
          avg_entry_price := new_avg_price
          cost_basis := new_cost_basis }
        let pos2 := pos1.update_price price
        ({ s1 with positions := alistSet s1.positions symbol pos2 }, .ok pos2)
    | none =>
        let pos0 : Position :=
          { symbol := symbol, quantity := quantity, avg_entry_price := price,
            current_price := price }
        let pos2 := pos0.update_price price
        ({ s1 with positions := alistSet s1.positions symbol pos2 }, .ok pos2)

/-- PortfolioManager.close_position. Both ValueError exits happen before any
mutation, so the error cases return the input state unchanged. -/
def close_position (s : PortfolioState) (symbol : String) (quantity price commission : ℚ) :
    PortfolioState × Except PFError ClosedTrade :=
  match alistGet s.positions symbol with
  | none => (s, .error .noPosition)
  | some pos =>
    if quantity > pos.quantity then (s, .error .overClose)
    else
      let proceeds := quantity * price - commission
      let cost_basis := quantity * pos.avg_entry_price
      let realized_pnl := proceeds - cost_basis
      let realized_pnl_pct := if cost_basis > 0 then realized_pnl / cost_basis * 100 else 0
      let trade : ClosedTrade :=
        { symbol := symbol, quantity := quantity, entry_price := pos.avg_entry_price,
          exit_price := price, realized_pnl := realized_pnl,
          realized_pnl_pct := realized_pnl_pct, commission := commission }
      let s1 := { s with
        cash := s.cash + proceeds
        total_commission_paid := s.total_commission_paid + commission
        closed_trades := s.closed_trades ++ [trade] }
      if quantity = pos.quantity then
        ({ s1 with positions := alistRemove s1.positions symbol }, .ok trade)
      else
        let pos1 := { pos with
          quantity := pos.quantity - quantity
          cost_basis := pos.cost_basis - cost_basis }
        let pos2 := pos1.update_price price
        ({ s1 with positions := alistSet s1.positions symbol pos2 }, .ok trade)

/-- PortfolioManager.update_position_prices. -/
def update_position_prices (s : PortfolioState) (prices : List (String × ℚ)) : PortfolioState :=
  prices.foldl
    (fun acc sp =>
      match alistGet acc.positions sp.1 with
      | some pos => { acc with positions := alistSet acc.positions sp.1 (pos.update_price sp.2) }
      | none => acc)
    s

/-- PortfolioManager.get_portfolio_value. -/
def get_portfolio_value (s : PortfolioState) : ℚ :=
  s.cash + (s.positions.map (fun p => p.2.market_value)).sum

/-! ### Order model (backend/paper_trading/order_manager.py) -/

inductive OrderSide where
  | buy
  | sell
deriving Repr, DecidableEq

inductive OrderType where
  | market
  | limit
  | stop
  | stop_limit
deriving Repr, DecidableEq

inductive OrderStatus where
  | pending
  | filled
  | partially_filled
  | cancelled
  | rejected
deriving Repr, DecidableEq

structure Order where
  order_id : String
  symbol : String
  side : OrderSide
  order_type : OrderType
  quantity : ℚ
  price : Option ℚ := none
  stop_price : Option ℚ := none
  status : OrderStatus := .pending
  filled_quantity : ℚ := 0
  avg_fill_price : ℚ := 0
  commission : ℚ := 0
  slippage : ℚ := 0
deriving Repr, DecidableEq

/-- OrderManager state: the commission and slippage configuration, the order book
keyed by order id, and the pending-order id list. -/
structure OMState where
  commission_pct : ℚ
  slippage_pct : ℚ
  orders : List (String × Order)
  pending_orders : List String
deriving Repr, DecidableEq

/-- OrderManager._should_fill_order. For validly created orders the limit price is
present on limit and stop-limit orders and the stop price on stop and stop-limit
orders (create_order rejects the rest), so the none branches are unreachable. -/
def should_fill_order (o : Order) (current_price : ℚ) : Bool :=
  match o.order_type with
  | .market => true
  | .limit =>
    match o.price with
    | some l => if o.side = .buy then current_price ≤ l else current_price ≥ l
    | none => false
  | .stop =>
    match o.stop_price with
    | some sp => if o.side = .buy then current_price ≥ sp else current_price ≤ sp
    | none => false
  | .stop_limit =>
    match o.stop_price, o.price with
    | some sp, some l =>
      let stop_triggered := if o.side = .buy then current_price ≥ sp else current_price ≤ sp
      if stop_triggered then
        (if o.side = .buy then current_price ≤ l else current_price ≥ l)
      else false
    | _, _ => false

/-- OrderManager._execute_order: apply slippage to the fill price, compute the
commission on the slipped notional and mark the order filled. -/
def execute_order (commission_pct slippage_pct : ℚ) (o : Order) (fill_price : ℚ) : Order :=
  let actual_fill_price :=
    if o.side = .buy then fill_price * (1 + slippage_pct)
    else fill_price * (1 - slippage_pct)
  let notional_value := o.quantity * actual_fill_price
  let commission := notional_value * commission_pct
  { o with
    status := .filled
    filled_quantity := o.quantity
    avg_fill_price := actual_fill_price
    commission := commission
    slippage := |actual_fill_price - fill_price| * o.quantity }

/-- Loop body of OrderManager.process_market_data over the pending id list:
returns the updated order book, the executed orders in processing sequence, and
the ids to drop from the pending list. Ids absent from the order book do not
occur (every pending id was inserted into the book on creation). -/
def process_pending (commission_pct slippage_pct : ℚ) (symbol : String) (current_price : ℚ)
    (orders : List (String × Order)) (pending : List String) :
    List (String × Order) × List Order × List String :=
  match pending with
  | [] => (orders, [], [])
  | oid :: rest =>
    match alistGet orders oid with
    | none => process_pending commission_pct slippage_pct symbol current_price orders rest
    | some o =>
      if o.symbol ≠ symbol then
        process_pending commission_pct slippage_pct symbol current_price orders rest
      else if should_fill_order o current_price then
        let o' := execute_order commission_pct slippage_pct o current_price
        let r := process_pending commission_pct slippage_pct symbol current_price
          (alistSet orders oid o') rest
        (r.1, o' :: r.2.1, oid :: r.2.2)
      else
        process_pending commission_pct slippage_pct symbol current_price orders rest

/-- OrderManager.process_market_data: fill every eligible pending order of the
symbol, record the fills in the order book, remove them from the pending list
and return them. Pending ids are unique, so filtering out the removed ids
matches the Python list.remove loop. -/
def process_market_data (om : OMState) (symbol : String) (current_price : ℚ) :
    OMState × List Order :=
  let r := process_pending om.commission_pct om.slippage_pct symbol current_price
    om.orders om.pending_orders
  ({ om with
      orders := r.1
      pending_orders := om.pending_orders.filter (fun oid => oid ∉ r.2.2) },
    r.2.1)

/-! ### Risk manager (backend/paper_trading/risk_manager.py) -/

inductive RiskReason where
  | positionSize
  | exposure
  | dailyLoss
deriving Repr, DecidableEq

/-- RiskManager configuration and rolling state. The Python reason strings carry
formatted percentages; they are abstracted to the tags of RiskReason. -/
structure RMState where
  max_position_size_pct : ℚ := 2/10
  max_total_exposure_pct : ℚ := 95/100
  max_drawdown_pct : ℚ := 15/100
  max_daily_loss_pct : ℚ := 5/100
  max_loss_per_trade_pct : ℚ := 2/100
  enable_stop_loss : Bool := true
  enable_daily_limit : Bool := true
  daily_pnl : List (String × ℚ) := []
  peak_portfolio_value : ℚ := 0
  current_drawdown_pct : ℚ := 0
deriving Repr, DecidableEq

/-- RiskManager.check_order_risk. The date used for the daily-loss lookup,
datetime.now in Python, is passed in as today. -/
def check_order_risk (rm : RMState) (today : String) (quantity price portfolio_value : ℚ)
    (current_positions : List (String × Position)) (side : String) :
    Bool × Option RiskReason :=
  let order_value := quantity * price
  let position_size_pct := order_value / portfolio_value * 100
  if position_size_pct > rm.max_position_size_pct * 100 then
    (false, some .positionSize)
  else
    let exposure_hit :=
      if side = "buy" then
        let current_exposure := (current_positions.map (fun p => p.2.market_value)).sum
        let new_exposure_pct := (current_exposure + order_value) / portfolio_value * 100
        new_exposure_pct > rm.max_total_exposure_pct * 100
      else false
    if exposure_hit then (false, some .exposure)
    else
      let daily_hit :=
        if rm.enable_daily_limit then
          let daily_loss := (alistGet rm.daily_pnl today).getD 0
          if daily_loss < 0 then
            |daily_loss / portfolio_value| * 100 > rm.max_daily_loss_pct * 100
          else false
        else false
      if daily_hit then (false, some .dailyLoss)
      else (true, none)

/-- RiskManager.update_daily_pnl at an explicit date. -/
def update_daily_pnl (rm : RMState) (pnl : ℚ) (date : String) : RMState :=
  let prev := (alistGet rm.daily_pnl date).getD 0
  { rm with daily_pnl := alistSet rm.daily_pnl date (prev + pnl) }

/-- RiskManager.update_drawdown. -/
def update_drawdown (rm : RMState) (current_portfolio_value : ℚ) : RMState :=
  let peak := if current_portfolio_value > rm.peak_portfolio_value
    then current_portfolio_value else rm.peak_portfolio_value
  { rm with
    peak_portfolio_value := peak
    current_drawdown_pct :=
      if peak > 0 then (peak - current_portfolio_value) / peak * 100 else 0 }

/-! ### Paper trading engine (backend/paper_trading/engine.py) -/

structure EngineState where
  om : OMState
  portfolio : PortfolioState
  current_prices : List (String × ℚ)
  enable_risk_management : Bool
  risk : RMState
deriving Repr, DecidableEq

/-- Per-order body of the loop in PaperTradingEngine._process_symbol_orders.
The Python try/except catches the portfolio exception and only logs it, so a
failing open or close leaves the engine exactly as the portfolio call left it —
which, both portfolio calls raising before any mutation, is unchanged. The risk
manager daily P&L update runs only after a successful sell close, on the trade
just appended. -/
def apply_executed_order (today : String) (s : EngineState) (o : Order) : EngineState :=
  if o.side = .buy then
    let r := open_position s.portfolio o.symbol o.filled_quantity o.avg_fill_price o.commission
    { s with portfolio := r.1 }
  else
    let r := close_position s.portfolio o.symbol o.filled_quantity o.avg_fill_price o.commission
    match r.2 with
    | .ok trade =>
      { s with
        portfolio := r.1
        risk := if s.enable_risk_management
          then update_daily_pnl s.risk trade.realized_pnl today else s.risk }
    | .error _ => { s with portfolio := r.1 }

/-- PaperTradingEngine._process_symbol_orders. -/
def process_symbol_orders (today : String) (s : EngineState) (symbol : String) (price : ℚ) :
    EngineState × List Order :=
  let r := process_market_data s.om symbol price
  let s1 := r.2.foldl (apply_executed_order today) { s with om := r.1 }
  (s1, r.2)

/-- PaperTradingEngine.update_market_data: record the price, mark positions to
market, process pending orders for the symbol, then update drawdown tracking. -/
def update_market_data (today : String) (s : EngineState) (symbol : String) (price : ℚ) :
    EngineState × List Order :=
  let s1 := { s with
    current_prices := alistSet s.current_prices symbol price
    portfolio := update_position_prices s.portfolio [(symbol, price)] }
  let r := process_symbol_orders today s1 symbol price
  let s2 := if r.1.enable_risk_management
    then { r.1 with risk := update_drawdown r.1.risk (get_portfolio_value r.1.portfolio) }
    else r.1
  (s2, r.2)

/-! ### Backtest engine (backend/backtest/engine.py)

The bar index of the pandas DataFrame is kept as a rational number of hours, so
a trade duration, total_seconds()/3600 in Python, is the plain difference of
the two timestamps. np.sqrt, the one non-rational operation of the metrics
(Sharpe, Sortino, volatility and the sample standard deviations feeding them),
is passed in as an explicit function argument sqrtFn. -/

structure Bar where
  t : ℚ
  close : ℚ
deriving Repr, DecidableEq

structure Signals where
  entries : List Bool
  exits : List Bool
deriving Repr, DecidableEq

/-- The strategy collaborator: generate_signals plus the two parameters the
replay loop reads with parameters.get and its defaults. -/
structure BTStrategy where
  generate_signals : List Bar → Signals
  stop_loss_pct : Option ℚ := none
  take_profit_pct : Option ℚ := none

structure BTConfig where
  initial_capital : ℚ := 10000
  commission_pct : ℚ := 1/1000
  slippage_pct : ℚ := 1/2000
  risk_per_trade : ℚ := 2/100
deriving Repr, DecidableEq

inductive ExitReason where
  | signal
  | stop_loss
  | take_profit
deriving Repr, DecidableEq

structure BTPosition where
  entry_time : ℚ
  entry_price : ℚ
  quantity : ℚ
  stop_loss : ℚ
  take_profit : ℚ
deriving Repr, DecidableEq

structure BTTrade where
  entry_time : ℚ
  exit_time : ℚ
  symbol : String
  side : String
  entry_price : ℚ
  exit_price : ℚ
  quantity : ℚ
  pnl : ℚ
  pnl_pct : ℚ
  commission : ℚ
  reason : ExitReason
deriving Repr, DecidableEq

structure SimState where
  capital : ℚ
  position : Option BTPosition
  trades : List BTTrade
  equity : List (ℚ × ℚ)
deriving Repr, DecidableEq

/-- One bar of the replay loop in BacktestEngine.run_backtest. With a position
open the Python entry branch (entries and position is None) is false, so the
elif branch always evaluates the exits in the order: strategy exit signal,
else close at or under the stop loss, else close at or over the take profit. -/
def bt_step (cfg : BTConfig) (slp tpp : Option ℚ) (symbol : String)
    (st : SimState) (bar : Bar) (entrySig exitSig : Bool) : SimState :=
  let current_price := bar.close
  let total_value := match st.position with
    | some pos => st.capital + pos.quantity * current_price
    | none => st.capital
  let equity1 := st.equity ++ [(bar.t, total_value)]
  match st.position with
  | none =>
    if entrySig then
      let risk_amount := total_value * cfg.risk_per_trade
      let stop_loss_price := current_price * (1 - slp.getD (2/100))
      let risk_per_unit := current_price - stop_loss_price
      let quantity := if risk_per_unit > 0 then risk_amount / risk_per_unit
        else total_value * (1/10) / current_price
      let entry_price := current_price * (1 + cfg.slippage_pct)
      let position_cost := quantity * entry_price
      let commission := position_cost * cfg.commission_pct
      if st.capital ≥ position_cost + commission then
        { capital := st.capital - (position_cost + commission)
          position := some
            { entry_time := bar.t, entry_price := entry_price, quantity := quantity,
              stop_loss := stop_loss_price,
              take_profit := current_price * (1 + tpp.getD (4/100)) }
          trades := st.trades
          equity := equity1 }
      else { st with equity := equity1 }
    else { st with equity := equity1 }
  | some pos =>
    let exit_reason : Option ExitReason :=
      if exitSig then some .signal
      else if current_price ≤ pos.stop_loss then some .stop_loss
      else if current_price ≥ pos.take_profit then some .take_profit
      else none
    match exit_reason with
    | some reason =>
      let exit_price := current_price * (1 - cfg.slippage_pct)
      let proceeds := pos.quantity * exit_price
      let commission := proceeds * cfg.commission_pct
      let pnl := proceeds - pos.quantity * pos.entry_price - commission
      let pnl_pct := pnl / (pos.quantity * pos.entry_price) * 100
      let trade : BTTrade :=
        { entry_time := pos.entry_time, exit_time := bar.t, symbol := symbol,
          side := "long", entry_price := pos.entry_price, exit_price := exit_price,
          quantity := pos.quantity, pnl := pnl, pnl_pct := pnl_pct,
          commission := commission * 2, reason := reason }
      { capital := st.capital + proceeds - commission
        position := none
        trades := st.trades ++ [trade]
        equity := equity1 }
    | none => { st with equity := equity1 }

/-- The full simulation pass of BacktestEngine.run_backtest: generate the
signals once, then fold bt_step over the bars in chronological order. -/
def run_simulation (cfg : BTConfig) (strat : BTStrategy) (symbol : String)
    (bars : List Bar) : SimState :=
  let signals := strat.generate_signals bars
  (List.range bars.length).foldl
    (fun st i =>
      bt_step cfg strat.stop_loss_pct strat.take_profit_pct symbol st
        (bars.getD i { t := 0, close := 0 })
        (signals.entries.getD i false) (signals.exits.getD i false))
    { capital := cfg.initial_capital, position := none, trades := [], equity := [] }

def listMin (l : List ℚ) : ℚ :=
  match l with
  | [] => 0
  | x :: xs => xs.foldl min x

def listMax (l : List ℚ) : ℚ :=
  match l with
  | [] => 0
  | x :: xs => xs.foldl max x

def listMean (l : List ℚ) : ℚ := l.sum / l.length

/-- Sample variance with the pandas default ddof = 1. -/
def varianceSample (l : List ℚ) : ℚ :=
  let m := listMean l
  (l.map (fun x => (x - m) ^ 2)).sum / ((l.length : ℚ) - 1)

def stdSample (sqrtFn : ℚ → ℚ) (l : List ℚ) : ℚ := sqrtFn (varianceSample l)

/-- Series.pct_change().dropna(): the relative change between consecutive values. -/
def pct_changes (l : List ℚ) : List ℚ :=
  match l with
  | [] => []
  | _ :: t => (l.zip t).map (fun ab => ab.2 / ab.1 - 1)

/-- BacktestEngine._calculate_sharpe. -/
def calc_sharpe (sqrtFn : ℚ → ℚ) (returns : List ℚ) : ℚ :=
  let risk_free_rate : ℚ := 2/100
  let excess := returns.map (fun r => r - risk_free_rate / 252)
  if stdSample sqrtFn excess = 0 then 0
  else listMean excess / stdSample sqrtFn excess * sqrtFn 252

/-- BacktestEngine._calculate_sortino. -/
def calc_sortino (sqrtFn : ℚ → ℚ) (returns : List ℚ) : ℚ :=
  let risk_free_rate : ℚ := 2/100
  let excess := returns.map (fun r => r - risk_free_rate / 252)
  let downside := returns.filter (fun r => r < 0)
  if downside.length = 0 ∨ stdSample sqrtFn downside = 0 then 0
  else listMean excess / stdSample sqrtFn downside * sqrtFn 252

def running_max_aux (m : ℚ) : List ℚ → List ℚ
  | [] => []
  | x :: xs =>
    let m' := max m x
    m' :: running_max_aux m' xs

def running_max (l : List ℚ) : List ℚ :=
  match l with
  | [] => []
  | x :: _ => running_max_aux x l

/-- BacktestEngine._calculate_drawdown: equity minus its expanding maximum. -/
def drawdowns (l : List ℚ) : List ℚ :=
  (l.zip (running_max l)).map (fun p => p.1 - p.2)

structure BacktestResultE where
  total_return : ℚ
  total_return_pct : ℚ
  sharpe_ratio : ℚ
  sortino_ratio : ℚ
  max_drawdown : ℚ
  max_drawdown_pct : ℚ
  total_trades : ℕ
  winning_trades : ℕ
  losing_trades : ℕ
  win_rate : ℚ
  avg_win : ℚ
  avg_loss : ℚ
  profit_factor : ℚ
  expectancy : ℚ
  avg_trade_duration : ℚ
  max_trade_duration : ℚ
  equity_curve : List (ℚ × ℚ)
  drawdown_curve : List ℚ
  trades : List BTTrade
  calmar_ratio : ℚ
  recovery_factor : ℚ
  volatility : ℚ
deriving Repr, DecidableEq

/-- BacktestEngine._calculate_metrics. -/
def calculate_metrics (sqrtFn : ℚ → ℚ) (initial_capital : ℚ)
    (equity_curve : List (ℚ × ℚ)) (trades : List BTTrade) : BacktestResultE :=
  let equity := equity_curve.map Prod.snd
  let total_return := equity.getLastD 0 - initial_capital
  let total_return_pct := total_return / initial_capital * 100
  let returns := pct_changes equity
  let dd := drawdowns equity
  let max_drawdown := listMin dd
  let max_drawdown_pct := max_drawdown / listMax equity * 100
  let total_trades := trades.length
  let wins := (trades.filter (fun t => t.pnl > 0)).map (fun t => t.pnl)
  let losses := (trades.filter (fun t => t.pnl < 0)).map (fun t => t.pnl)
  let win_rate := if total_trades > 0 then (wins.length : ℚ) / total_trades * 100 else 0
  let avg_win := if wins.length ≠ 0 then listMean wins else 0
  let avg_loss := if losses.length ≠ 0 then |listMean losses| else 0
  let durations := trades.map (fun t => t.exit_time - t.entry_time)
  { total_return := total_return
    total_return_pct := total_return_pct
    sharpe_ratio := calc_sharpe sqrtFn returns
    sortino_ratio := calc_sortino sqrtFn returns
    max_drawdown := max_drawdown
    max_drawdown_pct := max_drawdown_pct
    total_trades := total_trades
    winning_trades := wins.length
    losing_trades := losses.length
    win_rate := win_rate
    avg_win := avg_win
    avg_loss := avg_loss
    profit_factor := if losses.length ≠ 0 then wins.sum / |losses.sum| else 0
    expectancy := win_rate / 100 * avg_win - (1 - win_rate / 100) * avg_loss
    avg_trade_duration := if trades.length ≠ 0 then listMean durations else 0
    max_trade_duration := if trades.length ≠ 0 then listMax durations else 0
    equity_curve := equity_curve
    drawdown_curve := dd
    trades := trades
    calmar_ratio := if max_drawdown_pct ≠ 0 then |total_return_pct / max_drawdown_pct| else 0
    recovery_factor := if max_drawdown ≠ 0 then |total_return / max_drawdown| else 0
    volatility := stdSample sqrtFn returns * sqrtFn 252 * 100 }

/-- BacktestEngine.run_backtest without date filtering (the API task passes no
start or end date): simulate, then derive the metrics. -/
def run_backtest (sqrtFn : ℚ → ℚ) (cfg : BTConfig) (strat : BTStrategy) (symbol : String)
    (bars : List Bar) : BacktestResultE :=
  let sim := run_simulation cfg strat symbol bars
  calculate_metrics sqrtFn cfg.initial_capital sim.equity sim.trades

inductive BTError where
  | insufficientData
deriving Repr, DecidableEq

/-- The backtest entry point of backend/api/routes/backtest.py (_execute_backtest):
fetched data that is missing or shorter than 50 bars fails with Insufficient
data before the engine runs; otherwise the engine backtest runs on it. -/
def run_backtest_task (sqrtFn : ℚ → ℚ) (cfg : BTConfig) (strat : BTStrategy) (symbol : String)
    (data : Option (List Bar)) : Except BTError BacktestResultE :=
  match data with
  | none => .error .insufficientData
  | some bars =>
    if bars.length < 50 then .error .insufficientData
    else .ok (run_backtest sqrtFn cfg strat symbol bars)

/-! ### Concrete states used by witnesses and counterexamples -/

/-- A position of 10 units at average entry 100, as left by update_price at 100. -/
@[reducible] def posW : Position :=
  { symbol := "A", quantity := 10, avg_entry_price := 100, current_price := 100,
    unrealized_pnl := 0, unrealized_pnl_pct := 0, market_value := 1000, cost_basis := 1000 }

/-- The portfolio after opening 10 units of A at 100 with zero commission from
a starting capital of 10000. -/
@[reducible] def pfW : PortfolioState :=
  { initial_capital := 10000, cash := 9000, positions := [("A", posW)],
    closed_trades := [], total_commission_paid := 0 }

/-- An order shape with the side, type and prices under test. -/
@[reducible] def mkOrd (side : OrderSide) (otype : OrderType) (price stop_price : Option ℚ) : Order :=
  { order_id := "O1", symbol := "S", side := side, order_type := otype,
    quantity := 1, price := price, stop_price := stop_price }

/-- A risk manager with the default configuration: max position 20%, max
exposure 95%, max daily loss 5%, daily limit enabled, no P&L history. -/
@[reducible] def rmW : RMState := {}

/-- A pending market buy of 10 units of A. -/
@[reducible] def c1Order : Order :=
  { order_id := "ORD-1", symbol := "A", side := .buy, order_type := .market, quantity := 10 }

/-- An engine holding 100 in cash with the market buy of c1Order pending, with
zero commission and slippage configured: at a tick of 100 the buy costs 1000,
ten times the cash balance. -/
@[reducible] def c1Engine : EngineState :=
  { om := { commission_pct := 0, slippage_pct := 0,
            orders := [("ORD-1", c1Order)], pending_orders := ["ORD-1"] }
    portfolio := { initial_capital := 100, cash := 100, positions := [],
                   closed_trades := [], total_commission_paid := 0 }
    current_prices := []
    enable_risk_management := true
    risk := {} }

/-- Invariant: every held position has a nonnegative quantity. -/
def positions_nonneg (pf : PortfolioState) : Prop :=
  ∀ pr ∈ pf.positions, 0 ≤ pr.2.quantity

/-- Invariant: every order of an order book has a nonnegative quantity
(create_order rejects quantity ≤ 0, so every stored order satisfies it). -/
def orders_qty_nonneg (orders : List (String × Order)) : Prop :=
  ∀ pr ∈ orders, 0 ≤ pr.2.quantity

/-- A filled order as produced by execute_order under sane fee configuration:
nonnegative filled quantity and fill price, and a commission not exceeding the
notional value. -/
def order_fill_ok (o : Order) : Prop :=
  0 ≤ o.filled_quantity ∧ 0 ≤ o.avg_fill_price
    ∧ o.commission ≤ o.filled_quantity * o.avg_fill_price

/-! ### Association-list lemmas -/

theorem alistGet_set_self {α : Type} (l : List (String × α)) (k : String) (v : α) :
    alistGet (alistSet l k v) k = some v := by
  induction l with
  | nil => simp [alistSet, alistGet]
  | cons hd tl ih =>
    by_cases h : hd.1 = k
    · simp [alistSet, alistGet, h]
    · simp [alistSet, alistGet, h, ih]

theorem alistGet_eq_none_of_not_mem {α : Type} (l : List (String × α)) (k : String)
    (h : k ∉ l.map Prod.fst) : alistGet l k = none := by
  induction l with
  | nil => simp [alistGet]
  | cons hd tl ih =>
    simp only [List.map_cons, List.mem_cons, not_or] at h
    have h1 : hd.1 ≠ k := fun hc => h.1 hc.symm
    simp only [alistGet, if_neg h1]
    exact ih h.2

theorem alistGet_remove_self {α : Type} (l : List (String × α)) (k : String)
    (hnd : (l.map Prod.fst).Nodup) : alistGet (alistRemove l k) k = none := by
  induction l with
  | nil => simp [alistRemove, alistGet]
  | cons hd tl ih =>
    simp only [List.map_cons, List.nodup_cons] at hnd
    by_cases h : hd.1 = k
    · simp only [alistRemove, if_pos h]
      subst h
      exact alistGet_eq_none_of_not_mem tl hd.1 hnd.1
    · simp only [alistRemove, if_neg h, alistGet, if_neg h]
      exact ih hnd.2

/-! ### Claim C10 -/

/-- Claim C10: open_position is atomic on failure. If opening a position returns
the insufficient-cash error, the cash balance, the positions map, the
closed-trades list and the cumulative commission paid are all left exactly
unchanged. The check runs before any mutation in the source. -/
theorem open_position_error_atomic (s : PortfolioState) (symbol : String) (q p c : ℚ)
    (e : PFError) (hE : (open_position s symbol q p c).2 = .error e) :
    (open_position s symbol q p c).1.cash = s.cash
    ∧ (open_position s symbol q p c).1.positions = s.positions
    ∧ (open_position s symbol q p c).1.closed_trades = s.closed_trades
    ∧ (open_position s symbol q p c).1.total_commission_paid = s.total_commission_paid := by
  have hfst : (open_position s symbol q p c).1 = s := by
    unfold open_position at hE ⊢
    by_cases hc : |q * p| + c > s.cash
    · simp only [hc, if_pos]
    · simp only [hc, if_neg, if_false] at hE ⊢
      cases hmem : alistGet s.positions symbol with
      | some pos => rw [hmem] at hE; simp at hE
      | none => rw [hmem] at hE; simp at hE
  rw [hfst]
  exact ⟨rfl, rfl, rfl, rfl⟩

/-- Witness for C10: opening 100 units of A at 100 against 9000 of cash raises
insufficient cash, and the portfolio is untouched. -/
theorem open_position_error_atomic_witness :
    (open_position pfW "A" 100 100 0).2 = .error .insufficientCash
    ∧ (open_position pfW "A" 100 100 0).1.cash = pfW.cash
    ∧ (open_position pfW "A" 100 100 0).1.positions = pfW.positions
    ∧ (open_position pfW "A" 100 100 0).1.closed_trades = pfW.closed_trades
    ∧ (open_position pfW "A" 100 100 0).1.total_commission_paid
        = pfW.total_commission_paid := by
  have habs : |(100:ℚ) * 100| = 10000 := by
    rw [abs_of_nonneg (by norm_num : (0:ℚ) ≤ 100 * 100)]; norm_num
  have hgt : |(100:ℚ) * 100| + 0 > pfW.cash := by rw [habs]; norm_num [pfW]
  have hE : (open_position pfW "A" 100 100 0).2 = .error .insufficientCash := by
    simp only [open_position]
    rw [if_pos hgt]
  exact ⟨hE, open_position_error_atomic pfW "A" 100 100 0 .insufficientCash hE⟩

/-! ### Claim C2 -/

/-- Claim C2: merging a buy fill into an existing position uses weighted-average
cost: the new average entry price is (old cost basis + quantity × fill price)
divided by the new quantity, and the new quantity is the sum. -/
theorem open_position_weighted_avg (s : PortfolioState) (symbol : String) (q p c : ℚ)
    (pos : Position) (hmem : alistGet s.positions symbol = some pos)
    (hcash : ¬(|q * p| + c > s.cash)) :
    ∃ pos2, (open_position s symbol q p c).2 = .ok pos2
      ∧ pos2.quantity = pos.quantity + q
      ∧ pos2.avg_entry_price = (pos.cost_basis + q * p) / (pos.quantity + q)
      ∧ alistGet (open_position s symbol q p c).1.positions symbol = some pos2 := by
  unfold open_position
  simp only [hcash, if_neg, if_false, hmem]
  refine ⟨_, rfl, rfl, ?_, ?_⟩
  · show (if pos.quantity + q ≠ 0 then (pos.cost_basis + q * p) / (pos.quantity + q) else 0)
      = (pos.cost_basis + q * p) / (pos.quantity + q)
    by_cases hz : pos.quantity + q = 0
    · rw [if_neg (by simp [hz]), hz, div_zero]
    · rw [if_pos hz]
  · exact alistGet_set_self _ _ _

/-- Witness for C2: opening 10 at 100 and then 10 at 120 yields an average entry
price of 110 and a quantity of 20 (pfW is the portfolio after the first fill). -/
theorem open_position_weighted_avg_witness :
    ∃ pos2, (open_position pfW "A" 10 120 0).2 = .ok pos2
      ∧ pos2.quantity = 20
      ∧ pos2.avg_entry_price = 110
      ∧ alistGet (open_position pfW "A" 10 120 0).1.positions "A" = some pos2 := by
  have hmem : alistGet pfW.positions "A" = some posW := by
    simp [pfW, alistGet]
  have habs : |(10:ℚ) * 120| = 1200 := by
    rw [abs_of_nonneg (by norm_num : (0:ℚ) ≤ 10 * 120)]; norm_num
  have hcash : ¬(|(10:ℚ) * 120| + 0 > pfW.cash) := by rw [habs]; norm_num [pfW]
  obtain ⟨pos2, h1, h2, h3, h4⟩ :=
    open_position_weighted_avg pfW "A" 10 120 0 posW hmem hcash
  refine ⟨pos2, h1, ?_, ?_, h4⟩
  · rw [h2]; norm_num [posW]
  · rw [h3]; norm_num [posW]

/-! ### Claim C4 -/

/-- Claim C4: close_position fails with NoPosition when the symbol has no open
position and with OverClose when the requested quantity exceeds the held
quantity; on success the recorded realized P&L is quantity × fill price −
commission − quantity × average entry price, cash is credited quantity × fill
price − commission, the position is removed entirely on a full close, and on a
partial close quantity and cost basis are reduced proportionally while the
position persists with its average entry price. -/
theorem close_position_spec (s : PortfolioState) (symbol : String) (q p c : ℚ)
    (hnd : (s.positions.map Prod.fst).Nodup) :
    (alistGet s.positions symbol = none →
      close_position s symbol q p c = (s, .error .noPosition))
    ∧ (∀ pos, alistGet s.positions symbol = some pos → q > pos.quantity →
      close_position s symbol q p c = (s, .error .overClose))
    ∧ (∀ pos, alistGet s.positions symbol = some pos → ¬(q > pos.quantity) →
      ∃ trade, (close_position s symbol q p c).2 = .ok trade
        ∧ trade.realized_pnl = q * p - c - q * pos.avg_entry_price
        ∧ (close_position s symbol q p c).1.cash = s.cash + (q * p - c)
        ∧ (close_position s symbol q p c).1.closed_trades = s.closed_trades ++ [trade]
        ∧ (q = pos.quantity →
            alistGet (close_position s symbol q p c).1.positions symbol = none)
        ∧ (q ≠ pos.quantity →
            ∃ pos2, alistGet (close_position s symbol q p c).1.positions symbol = some pos2
              ∧ pos2.quantity = pos.quantity - q
              ∧ pos2.avg_entry_price = pos.avg_entry_price
              ∧ pos2.cost_basis = (pos.quantity - q) * pos.avg_entry_price
              ∧ (pos.cost_basis = pos.quantity * pos.avg_entry_price →
                  pos2.cost_basis * pos.quantity = pos.cost_basis * pos2.quantity))) := by
  refine ⟨?_, ?_, ?_⟩
  · intro h
    unfold close_position
    rw [h]
  · intro pos h hq
    unfold close_position
    rw [h]
    simp only [if_pos hq]
  · intro pos h hq
    unfold close_position
    rw [h]
    simp only [if_neg hq]
    by_cases hq2 : q = pos.quantity
    · rw [if_pos hq2]
      refine ⟨_, rfl, rfl, rfl, rfl, fun _ => ?_, fun hne => absurd hq2 hne⟩
      exact alistGet_remove_self _ _ hnd
    · rw [if_neg hq2]
      refine ⟨_, rfl, rfl, rfl, rfl, fun heq => absurd heq hq2, fun _ => ?_⟩
      refine ⟨_, alistGet_set_self _ _ _, rfl, rfl, rfl, fun hcb => ?_⟩
      show (pos.quantity - q) * pos.avg_entry_price * pos.quantity
      = pos.cost_basis * (pos.quantity - q)
      rw [hcb]
      ring

/-- Witness for C4: partially closing 4 of the 10 held units of A at 110 with a
commission of 1 records realized P&L 4 × 110 − 1 − 4 × 100 = 39, credits cash by
439, and leaves 6 units at average entry 100 with cost basis 600. -/
theorem close_position_spec_witness :
    ∃ trade, (close_position pfW "A" 4 110 1).2 = .ok trade
      ∧ trade.realized_pnl = 39
      ∧ (close_position pfW "A" 4 110 1).1.cash = 9439
      ∧ ∃ pos2, alistGet (close_position pfW "A" 4 110 1).1.positions "A" = some pos2
          ∧ pos2.quantity = 6
          ∧ pos2.avg_entry_price = 100
          ∧ pos2.cost_basis = 600 := by
  have hnd : (pfW.positions.map Prod.fst).Nodup := by simp [pfW]
  have hmem : alistGet pfW.positions "A" = some posW := by simp [pfW, alistGet]
  have hle : ¬((4:ℚ) > posW.quantity) := by norm_num [posW]
  obtain ⟨trade, h1, h2, h3, h4, h5, h6⟩ :=
    (close_position_spec pfW "A" 4 110 1 hnd).2.2 posW hmem hle
  obtain ⟨pos2, g1, g2, g3, g4, g5⟩ := h6 (by norm_num [posW])
  refine ⟨trade, h1, ?_, ?_, pos2, g1, ?_, ?_, ?_⟩
  · rw [h2]; norm_num [posW]
  · rw [h3]; norm_num [pfW]
  · rw [g2]; norm_num [posW]
  · rw [g3]
  · rw [g4]; norm_num [posW]

/-! ### Claim C3 -/

/-- Claim C3: pending orders fill against a tick price p exactly per the
per-type rules. Market orders always fill; a buy limit fills iff p ≤ limit and
a sell limit iff p ≥ limit; a buy stop fills iff p ≥ stop and a sell stop iff
p ≤ stop; a stop-limit fills iff its stop rule is triggered and its limit
condition holds at p. -/
theorem should_fill_order_rules (o : Order) (p : ℚ) :
    (o.order_type = .market → should_fill_order o p = true)
    ∧ (∀ l, o.order_type = .limit → o.price = some l →
        should_fill_order o p =
          if o.side = .buy then decide (p ≤ l) else decide (p ≥ l))
    ∧ (∀ sp, o.order_type = .stop → o.stop_price = some sp →
        should_fill_order o p =
          if o.side = .buy then decide (p ≥ sp) else decide (p ≤ sp))
    ∧ (∀ l sp, o.order_type = .stop_limit → o.price = some l → o.stop_price = some sp →
        should_fill_order o p =
          if o.side = .buy then decide (p ≥ sp) && decide (p ≤ l)
          else decide (p ≤ sp) && decide (p ≥ l)) := by
  refine ⟨?_, ?_, ?_, ?_⟩
  · intro ht
    simp [should_fill_order, ht]
  · intro l ht hpr
    cases hs : o.side <;> simp [should_fill_order, ht, hpr, hs]
  · intro sp ht hsp
    cases hs : o.side <;> simp [should_fill_order, ht, hsp, hs]
  · intro l sp ht hpr hsp
    cases hs : o.side <;>
      simp [should_fill_order, ht, hpr, hsp, hs, Bool.and_comm, decide_eq_true_eq]

/-- Witness for C3: a buy limit at 180 does not fill at a tick of 182 and fills
at a tick of 179. -/
theorem should_fill_order_rules_witness :
    should_fill_order (mkOrd .buy .limit (some 180) none) 182 = false
    ∧ should_fill_order (mkOrd .buy .limit (some 180) none) 179 = true := by
  have h1 := (should_fill_order_rules (mkOrd .buy .limit (some 180) none) 182).2.1 180 rfl rfl
  have h2 := (should_fill_order_rules (mkOrd .buy .limit (some 180) none) 179).2.1 180 rfl rfl
  constructor
  · rw [h1]; norm_num [mkOrd]
  · rw [h2]; norm_num [mkOrd]

/-! ### Claim C9 -/

/-- Claim C9: for every order filled at tick price p, the recorded fill price is
p × (1 + slippage_pct) for a buy and p × (1 − slippage_pct) for a sell, and the
recorded commission is quantity × slipped fill price × commission_pct. The
order also ends filled with filled_quantity equal to the requested quantity. -/
theorem execute_order_spec (cp sp : ℚ) (o : Order) (p : ℚ) :
    (execute_order cp sp o p).avg_fill_price
      = (if o.side = .buy then p * (1 + sp) else p * (1 - sp))
    ∧ (execute_order cp sp o p).commission
      = o.quantity * (execute_order cp sp o p).avg_fill_price * cp
    ∧ (execute_order cp sp o p).status = .filled
    ∧ (execute_order cp sp o p).filled_quantity = o.quantity := by
  exact ⟨rfl, rfl, rfl, rfl⟩

/-! ### Claim C5 -/

/-- Claim C5: the pre-trade risk check for a buy rejects first when
quantity × price / portfolio_value exceeds the max-position-size fraction, then
when (Σ open position values + quantity × price) / portfolio_value exceeds the
max-total-exposure fraction, then when today's realized loss exceeds the
max-daily-loss fraction of portfolio value; the first violated check's reason
is returned, and an order violating none is allowed. -/
theorem check_order_risk_buy_spec (rm : RMState) (today : String) (q p pv : ℚ)
    (positions : List (String × Position)) :
    (rm.max_position_size_pct < q * p / pv →
      check_order_risk rm today q p pv positions "buy" = (false, some .positionSize))
    ∧ (¬(rm.max_position_size_pct < q * p / pv) →
       rm.max_total_exposure_pct
          < ((positions.map (fun x => x.2.market_value)).sum + q * p) / pv →
      check_order_risk rm today q p pv positions "buy" = (false, some .exposure))
    ∧ (¬(rm.max_position_size_pct < q * p / pv) →
       ¬(rm.max_total_exposure_pct
          < ((positions.map (fun x => x.2.market_value)).sum + q * p) / pv) →
       rm.enable_daily_limit = true →
       (alistGet rm.daily_pnl today).getD 0 < 0 →
       rm.max_daily_loss_pct < |(alistGet rm.daily_pnl today).getD 0 / pv| →
      check_order_risk rm today q p pv positions "buy" = (false, some .dailyLoss))
    ∧ (¬(rm.max_position_size_pct < q * p / pv) →
       ¬(rm.max_total_exposure_pct
          < ((positions.map (fun x => x.2.market_value)).sum + q * p) / pv) →
       ¬(rm.enable_daily_limit = true ∧ (alistGet rm.daily_pnl today).getD 0 < 0 ∧
          rm.max_daily_loss_pct < |(alistGet rm.daily_pnl today).getD 0 / pv|) →
      check_order_risk rm today q p pv positions "buy" = (true, none)) := by
  have h100 : (0:ℚ) < 100 := by norm_num
  refine ⟨?_, ?_, ?_, ?_⟩
  · intro h1
    have hc : q * p / pv * 100 > rm.max_position_size_pct * 100 :=
      (mul_lt_mul_right h100).mpr h1
    simp [check_order_risk, hc]
  · intro h1 h2
    have hc : ¬(q * p / pv * 100 > rm.max_position_size_pct * 100) := by
      rw [gt_iff_lt, mul_lt_mul_right h100]; exact h1
    have he : ((positions.map (fun x => x.2.market_value)).sum + q * p) / pv * 100
        > rm.max_total_exposure_pct * 100 := (mul_lt_mul_right h100).mpr h2
    simp [check_order_risk, hc, he]
  · intro h1 h2 h3 h4 h5
    have hc : ¬(q * p / pv * 100 > rm.max_position_size_pct * 100) := by
      rw [gt_iff_lt, mul_lt_mul_right h100]; exact h1
    have he : ¬(((positions.map (fun x => x.2.market_value)).sum + q * p) / pv * 100
        > rm.max_total_exposure_pct * 100) := by
      rw [gt_iff_lt, mul_lt_mul_right h100]; exact h2
    have hd : |(alistGet rm.daily_pnl today).getD 0 / pv| * 100
        > rm.max_daily_loss_pct * 100 := (mul_lt_mul_right h100).mpr h5
    simp [check_order_risk, hc, he, h3, h4, hd]
  · intro h1 h2 h3
    have hc : ¬(q * p / pv * 100 > rm.max_position_size_pct * 100) := by
      rw [gt_iff_lt, mul_lt_mul_right h100]; exact h1
    have he : ¬(((positions.map (fun x => x.2.market_value)).sum + q * p) / pv * 100
        > rm.max_total_exposure_pct * 100) := by
      rw [gt_iff_lt, mul_lt_mul_right h100]; exact h2
    by_cases hlim : rm.enable_daily_limit = true
    · by_cases hneg : (alistGet rm.daily_pnl today).getD 0 < 0
      · have hd : ¬(|(alistGet rm.daily_pnl today).getD 0 / pv| * 100
            > rm.max_daily_loss_pct * 100) := by
          rw [gt_iff_lt, mul_lt_mul_right h100]
          intro hcon
          exact h3 ⟨hlim, hneg, hcon⟩
        simp [check_order_risk, hc, he, hlim, hneg, hd]
      · simp [check_order_risk, hc, he, hlim, hneg]
    · simp [check_order_risk, hc, he, hlim]

/-- Witness for C5: with the default limits, portfolio value 10000 and no open
positions, a buy worth 2500 is rejected with the position-size reason and a buy
worth 1500 is allowed. -/
theorem check_order_risk_buy_spec_witness :
    check_order_risk rmW "D" 25 100 10000 [] "buy" = (false, some .positionSize)
    ∧ check_order_risk rmW "D" 15 100 10000 [] "buy" = (true, none) := by
  constructor
  · exact (check_order_risk_buy_spec rmW "D" 25 100 10000 []).1 (by norm_num [rmW])
  · exact (check_order_risk_buy_spec rmW "D" 15 100 10000 []).2.2.2
      (by norm_num [rmW]) (by norm_num [rmW])
      (by norm_num [rmW, alistGet])

/-! ### Claim C6 -/

/-- Claim C6: for every bars input with fewer than 50 usable bars, the backtest
task fails with insufficient data before the engine simulation runs (the guard
sits in the API task, ahead of the BacktestEngine.run_backtest call, so no
trade is simulated and no metric computed). -/
theorem run_backtest_task_insufficient_data (sqrtFn : ℚ → ℚ) (cfg : BTConfig)
    (strat : BTStrategy) (symbol : String) (bars : List Bar) (h : bars.length < 50) :
    run_backtest_task sqrtFn cfg strat symbol (some bars) = .error .insufficientData := by
  simp [run_backtest_task, h]

/-- Witness for C6: an empty bar list fails with insufficient data. -/
theorem run_backtest_task_insufficient_data_witness :
    run_backtest_task (fun x => x) {} { generate_signals := fun _ => ⟨[], []⟩ } "A" (some [])
      = .error .insufficientData :=
  run_backtest_task_insufficient_data (fun x => x) {}
    { generate_signals := fun _ => ⟨[], []⟩ } "A" [] (by norm_num)

/-! ### Claim C8 -/

/-- Claim C8: the backtest is deterministic. For every bars input, strategy and
parameter set, two runs on identical inputs produce identical BacktestResult
values: the same trades, equity curve and all derived metrics. -/
theorem run_backtest_deterministic (sqrtFn : ℚ → ℚ) (cfg : BTConfig)
    (strat1 strat2 : BTStrategy) (symbol1 symbol2 : String) (bars1 bars2 : List Bar)
    (hb : bars1 = bars2) (hs : strat1 = strat2) (hsym : symbol1 = symbol2) :
    run_backtest sqrtFn cfg strat1 symbol1 bars1
      = run_backtest sqrtFn cfg strat2 symbol2 bars2 := by
  subst hb
  subst hs
  subst hsym
  rfl

/-- Witness for C8: two runs on one concrete bar list and strategy agree. -/
theorem run_backtest_deterministic_witness :
    run_backtest (fun x => x) {} { generate_signals := fun _ => ⟨[], []⟩ } "A"
        [{ t := 0, close := 1 }]
      = run_backtest (fun x => x) {} { generate_signals := fun _ => ⟨[], []⟩ } "A"
        [{ t := 0, close := 1 }] :=
  run_backtest_deterministic (fun x => x) {}
    { generate_signals := fun _ => ⟨[], []⟩ } { generate_signals := fun _ => ⟨[], []⟩ }
    "A" "A" [{ t := 0, close := 1 }] [{ t := 0, close := 1 }] rfl rfl rfl

/-! ### Claim C7 -/

/-- Claim C7: in the backtest replay loop, at every bar with an open position
the exit conditions are evaluated with the precedence strategy exit signal,
else close ≤ stop-loss, else close ≥ take-profit; on any trigger the recorded
trade carries the corresponding reason, the exit price includes the exit
slippage, the doubled commission is recorded on the trade, and the position is
closed; with no trigger the position and trade list are unchanged. -/
theorem bt_step_exit_precedence (cfg : BTConfig) (slp tpp : Option ℚ) (symbol : String)
    (st : SimState) (bar : Bar) (entrySig exitSig : Bool) (pos : BTPosition)
    (hpos : st.position = some pos) :
    (exitSig = true ∨ bar.close ≤ pos.stop_loss ∨ bar.close ≥ pos.take_profit →
      ∃ tr, (bt_step cfg slp tpp symbol st bar entrySig exitSig).trades = st.trades ++ [tr]
        ∧ (bt_step cfg slp tpp symbol st bar entrySig exitSig).position = none
        ∧ tr.reason = (if exitSig = true then ExitReason.signal
            else if bar.close ≤ pos.stop_loss then ExitReason.stop_loss
            else ExitReason.take_profit)
        ∧ tr.exit_price = bar.close * (1 - cfg.slippage_pct)
        ∧ tr.commission
            = pos.quantity * (bar.close * (1 - cfg.slippage_pct)) * cfg.commission_pct * 2
        ∧ (bt_step cfg slp tpp symbol st bar entrySig exitSig).capital
            = st.capital + pos.quantity * (bar.close * (1 - cfg.slippage_pct))
              - pos.quantity * (bar.close * (1 - cfg.slippage_pct)) * cfg.commission_pct)
    ∧ (¬(exitSig = true ∨ bar.close ≤ pos.stop_loss ∨ bar.close ≥ pos.take_profit) →
      (bt_step cfg slp tpp symbol st bar entrySig exitSig).position = some pos
        ∧ (bt_step cfg slp tpp symbol st bar entrySig exitSig).trades = st.trades) := by
  constructor
  · intro htrig
    by_cases hx : exitSig = true
    · simp only [bt_step, hpos, hx, if_true]
      exact ⟨_, rfl, trivial, rfl, rfl, rfl, trivial⟩
    · simp only [Bool.not_eq_true] at hx
      by_cases hsl : bar.close ≤ pos.stop_loss
      · simp only [bt_step, hpos, hx, Bool.false_eq_true, if_false, if_pos hsl]
        exact ⟨_, rfl, trivial, rfl, rfl, rfl, trivial⟩
      · have htp : bar.close ≥ pos.take_profit := by
          rcases htrig with h | h | h
          · rw [hx] at h; cases h
          · exact absurd h hsl
          · exact h
        simp only [bt_step, hpos, hx, Bool.false_eq_true, if_false, if_neg hsl, if_pos htp]
        exact ⟨_, rfl, trivial, rfl, rfl, rfl, trivial⟩
  · intro hno
    push_neg at hno
    obtain ⟨hx, hsl, htp⟩ := hno
    simp only [Bool.not_eq_true] at hx
    have hsl2 : ¬(bar.close ≤ pos.stop_loss) := not_le.mpr hsl
    have htp2 : ¬(bar.close ≥ pos.take_profit) := not_le.mpr htp
    simp only [bt_step, hpos, hx, Bool.false_eq_true, if_false, if_neg hsl2, if_neg htp2]
    exact ⟨trivial, trivial⟩

/-- Witness for C7: with a position of 1 unit, stop loss 95 and take profit 104,
a bar closing at 90 with no exit signal triggers the stop-loss exit: the trade
is recorded with the stop_loss reason and the slipped exit price, and the
position is closed. -/
theorem bt_step_exit_precedence_witness :
    ∃ tr,
      (bt_step {} none none "A"
          { capital := 1000,
            position := some
              { entry_time := 0, entry_price := 100, quantity := 1,
                stop_loss := 95, take_profit := 104 },
            trades := [], equity := [] }
          { t := 1, close := 90 } false false).trades = [] ++ [tr]
      ∧ (bt_step {} none none "A"
          { capital := 1000,
            position := some
              { entry_time := 0, entry_price := 100, quantity := 1,
                stop_loss := 95, take_profit := 104 },
            trades := [], equity := [] }
          { t := 1, close := 90 } false false).position = none
      ∧ tr.reason = ExitReason.stop_loss
      ∧ tr.exit_price = 90 * (1 - (1:ℚ)/2000) := by
  obtain ⟨tr, h1, h2, h3, h4, h5, h6⟩ :=
    (bt_step_exit_precedence {} none none "A"
      { capital := 1000,
        position := some
          { entry_time := 0, entry_price := 100, quantity := 1,
            stop_loss := 95, take_profit := 104 },
        trades := [], equity := [] }
      { t := 1, close := 90 } false false
      { entry_time := 0, entry_price := 100, quantity := 1,
        stop_loss := 95, take_profit := 104 } rfl).1
      (Or.inr (Or.inl (by norm_num)))
  refine ⟨tr, h1, h2, ?_, ?_⟩
  · rw [h3]; norm_num
  · rw [h4]

/-! ### Engine safety lemmas for claim C1 -/

theorem alistGet_mem {α : Type} (l : List (String × α)) (k : String) (v : α)
    (h : alistGet l k = some v) : (k, v) ∈ l := by
  induction l with
  | nil => simp [alistGet] at h
  | cons hd tl ih =>
    by_cases hk : hd.1 = k
    · have h2 : hd.2 = v := by simpa [alistGet, if_pos hk] using h
      have h3 : (k, v) = hd := by rw [← hk, ← h2]
      rw [h3]
      exact List.mem_cons_self _ _
    · simp only [alistGet, if_neg hk] at h
      exact List.mem_cons_of_mem _ (ih h)

theorem alistSet_forall {α : Type} (P : α → Prop) (l : List (String × α)) (k : String) (v : α)
    (h : ∀ pr ∈ l, P pr.2) (hv : P v) : ∀ pr ∈ alistSet l k v, P pr.2 := by
  induction l with
  | nil =>
    intro pr hpr
    simp only [alistSet, List.mem_singleton] at hpr
    rw [hpr]
    exact hv
  | cons hd tl ih =>
    intro pr hpr
    by_cases hk : hd.1 = k
    · simp only [alistSet, if_pos hk, List.mem_cons] at hpr
      rcases hpr with h1 | h2
      · rw [h1]; exact hv
      · exact h pr (List.mem_cons_of_mem _ h2)
    · simp only [alistSet, if_neg hk, List.mem_cons] at hpr
      rcases hpr with h1 | h2
      · rw [h1]; exact h hd (List.mem_cons_self _ _)
      · exact ih (fun q hq => h q (List.mem_cons_of_mem _ hq)) pr h2

theorem alistRemove_forall {α : Type} (P : α → Prop) (l : List (String × α)) (k : String)
    (h : ∀ pr ∈ l, P pr.2) : ∀ pr ∈ alistRemove l k, P pr.2 := by
  induction l with
  | nil => intro pr hpr; simp [alistRemove] at hpr
  | cons hd tl ih =>
    intro pr hpr
    by_cases hk : hd.1 = k
    · simp only [alistRemove, if_pos hk] at hpr
      exact h pr (List.mem_cons_of_mem _ hpr)
    · simp only [alistRemove, if_neg hk, List.mem_cons] at hpr
      rcases hpr with h1 | h2
      · rw [h1]; exact h hd (List.mem_cons_self _ _)
      · exact ih (fun q hq => h q (List.mem_cons_of_mem _ hq)) pr h2

theorem alistSet_qty_nonneg (l : List (String × Position)) (k : String) (v : Position)
    (h : ∀ pr ∈ l, 0 ≤ pr.2.quantity) (hv : 0 ≤ v.quantity) :
    ∀ pr ∈ alistSet l k v, 0 ≤ pr.2.quantity :=
  alistSet_forall (fun x : Position => 0 ≤ x.quantity) l k v h hv

theorem alistRemove_qty_nonneg (l : List (String × Position)) (k : String)
    (h : ∀ pr ∈ l, 0 ≤ pr.2.quantity) :
    ∀ pr ∈ alistRemove l k, 0 ≤ pr.2.quantity :=
  alistRemove_forall (fun x : Position => 0 ≤ x.quantity) l k h

theorem alistSet_order_qty_nonneg (l : List (String × Order)) (k : String) (v : Order)
    (h : ∀ pr ∈ l, 0 ≤ pr.2.quantity) (hv : 0 ≤ v.quantity) :
    ∀ pr ∈ alistSet l k v, 0 ≤ pr.2.quantity :=
  alistSet_forall (fun x : Order => 0 ≤ x.quantity) l k v h hv

theorem open_position_inv (s : PortfolioState) (symbol : String) (q p c : ℚ)
    (hc : 0 ≤ s.cash) (hps : positions_nonneg s) (hq : 0 ≤ q) :
    0 ≤ (open_position s symbol q p c).1.cash
    ∧ positions_nonneg (open_position s symbol q p c).1 := by
  unfold open_position
  by_cases hcost : |q * p| + c > s.cash
  · simp only [if_pos hcost]
    exact ⟨hc, hps⟩
  · simp only [if_neg hcost]
    push_neg at hcost
    cases hmem : alistGet s.positions symbol with
    | some pos =>
      simp only [hmem]
      constructor
      · show 0 ≤ s.cash - (|q * p| + c)
        linarith
      · have hposq : 0 ≤ pos.quantity := hps (symbol, pos) (alistGet_mem _ _ _ hmem)
        intro pr hpr
        refine alistSet_qty_nonneg s.positions symbol _ hps ?_ pr hpr
        show 0 ≤ pos.quantity + q
        linarith
    | none =>
      simp only [hmem]
      constructor
      · show 0 ≤ s.cash - (|q * p| + c)
        linarith
      · intro pr hpr
        refine alistSet_qty_nonneg s.positions symbol _ hps ?_ pr hpr
        exact hq

theorem close_position_inv (s : PortfolioState) (symbol : String) (q p c : ℚ)
    (hc : 0 ≤ s.cash) (hps : positions_nonneg s) (hpc : 0 ≤ q * p - c) :
    0 ≤ (close_position s symbol q p c).1.cash
    ∧ positions_nonneg (close_position s symbol q p c).1 := by
  unfold close_position
  cases hmem : alistGet s.positions symbol with
  | none => simp only [hmem]; exact ⟨hc, hps⟩
  | some pos =>
    simp only [hmem]
    by_cases hqq : q > pos.quantity
    · simp only [if_pos hqq]
      exact ⟨hc, hps⟩
    · simp only [if_neg hqq]
      push_neg at hqq
      by_cases hfull : q = pos.quantity
      · simp only [if_pos hfull]
        constructor
        · show 0 ≤ s.cash + (q * p - c)
          linarith
        · intro pr hpr
          exact alistRemove_qty_nonneg s.positions symbol hps pr hpr
      · simp only [if_neg hfull]
        constructor
        · show 0 ≤ s.cash + (q * p - c)
          linarith
        · intro pr hpr
          refine alistSet_qty_nonneg s.positions symbol _ hps ?_ pr hpr
          show 0 ≤ pos.quantity - q
          linarith

theorem execute_order_fill_ok (cp sp : ℚ) (o : Order) (p : ℚ)
    (_hcp0 : 0 ≤ cp) (hcp1 : cp ≤ 1) (hsp0 : 0 ≤ sp) (hsp1 : sp ≤ 1)
    (hq : 0 ≤ o.quantity) (hp : 0 ≤ p) :
    order_fill_ok (execute_order cp sp o p) := by
  have hafp : 0 ≤ (if o.side = OrderSide.buy then p * (1 + sp) else p * (1 - sp)) := by
    by_cases h : o.side = OrderSide.buy
    · rw [if_pos h]; exact mul_nonneg hp (by linarith)
    · rw [if_neg h]; exact mul_nonneg hp (by linarith)
  refine ⟨hq, hafp, ?_⟩
  show o.quantity * (if o.side = OrderSide.buy then p * (1 + sp) else p * (1 - sp)) * cp
    ≤ o.quantity * (if o.side = OrderSide.buy then p * (1 + sp) else p * (1 - sp))
  have hqa : 0 ≤ o.quantity * (if o.side = OrderSide.buy then p * (1 + sp) else p * (1 - sp)) :=
    mul_nonneg hq hafp
  calc o.quantity * (if o.side = OrderSide.buy then p * (1 + sp) else p * (1 - sp)) * cp
      ≤ o.quantity * (if o.side = OrderSide.buy then p * (1 + sp) else p * (1 - sp)) * 1 :=
        mul_le_mul_of_nonneg_left hcp1 hqa
    _ = o.quantity * (if o.side = OrderSide.buy then p * (1 + sp) else p * (1 - sp)) :=
        mul_one _

theorem execute_order_quantity (cp sp : ℚ) (o : Order) (p : ℚ) :
    (execute_order cp sp o p).quantity = o.quantity := rfl

theorem process_pending_fills_ok (cp sp p : ℚ) (sym : String)
    (hcp0 : 0 ≤ cp) (hcp1 : cp ≤ 1) (hsp0 : 0 ≤ sp) (hsp1 : sp ≤ 1) (hp : 0 ≤ p) :
    ∀ (pending : List String) (orders : List (String × Order)),
    orders_qty_nonneg orders →
    ∀ o ∈ (process_pending cp sp sym p orders pending).2.1, order_fill_ok o := by
  intro pending
  induction pending with
  | nil => intro orders _ o ho; simp [process_pending] at ho
  | cons oid rest ih =>
    intro orders horders o ho
    rw [process_pending] at ho
    cases hmem : alistGet orders oid with
    | none =>
      simp only [hmem] at ho
      exact ih orders horders o ho
    | some ord =>
      simp only [hmem] at ho
      by_cases hsym : ord.symbol ≠ sym
      · rw [if_pos hsym] at ho
        exact ih orders horders o ho
      · rw [if_neg hsym] at ho
        by_cases hfill : should_fill_order ord p
        · rw [if_pos hfill] at ho
          simp only [List.mem_cons] at ho
          have hordq : 0 ≤ ord.quantity := horders (oid, ord) (alistGet_mem _ _ _ hmem)
          rcases ho with h1 | h2
          · rw [h1]
            exact execute_order_fill_ok cp sp ord p hcp0 hcp1 hsp0 hsp1 hordq hp
          · refine ih _ ?_ o h2
            intro pr hpr
            refine alistSet_order_qty_nonneg orders oid _ horders ?_ pr hpr
            show 0 ≤ (execute_order cp sp ord p).quantity
            rw [execute_order_quantity]
            exact hordq
        · rw [if_neg hfill] at ho
          exact ih orders horders o ho

theorem update_position_prices_inv (prices : List (String × ℚ)) (s : PortfolioState)
    (hc : 0 ≤ s.cash) (hps : positions_nonneg s) :
    (update_position_prices s prices).cash = s.cash
    ∧ positions_nonneg (update_position_prices s prices) := by
  induction prices generalizing s with
  | nil => exact ⟨rfl, hps⟩
  | cons pr rest ih =>
    rw [update_position_prices, List.foldl_cons]
    cases hmem : alistGet s.positions pr.1 with
    | some pos =>
      have step : positions_nonneg
          { s with positions := alistSet s.positions pr.1 (pos.update_price pr.2) } := by
        intro q hq
        refine alistSet_qty_nonneg s.positions pr.1 _ hps ?_ q hq
        show 0 ≤ pos.quantity
        exact hps (pr.1, pos) (alistGet_mem _ _ _ hmem)
      exact ih _ hc step
    | none =>
      exact ih _ hc hps

theorem apply_executed_order_inv (today : String) (s : EngineState) (o : Order)
    (ho : order_fill_ok o) (hc : 0 ≤ s.portfolio.cash) (hps : positions_nonneg s.portfolio) :
    0 ≤ (apply_executed_order today s o).portfolio.cash
    ∧ positions_nonneg (apply_executed_order today s o).portfolio := by
  obtain ⟨h1, h2, h3⟩ := ho
  unfold apply_executed_order
  by_cases hside : o.side = OrderSide.buy
  · simp only [if_pos hside]
    exact open_position_inv _ _ _ _ _ hc hps h1
  · simp only [if_neg hside]
    have hinv := close_position_inv s.portfolio o.symbol o.filled_quantity o.avg_fill_price
      o.commission hc hps (by linarith)
    cases hres : (close_position s.portfolio o.symbol o.filled_quantity o.avg_fill_price
        o.commission).2 with
    | ok trade => simp only [hres]; exact hinv
    | error e => simp only [hres]; exact hinv

theorem foldl_apply_executed_inv (today : String) :
    ∀ (l : List Order) (s : EngineState),
    (∀ o ∈ l, order_fill_ok o) → 0 ≤ s.portfolio.cash → positions_nonneg s.portfolio →
    0 ≤ (l.foldl (apply_executed_order today) s).portfolio.cash
    ∧ positions_nonneg (l.foldl (apply_executed_order today) s).portfolio := by
  intro l
  induction l with
  | nil => intro s _ hc hp; exact ⟨hc, hp⟩
  | cons hd tl ih =>
    intro s hall hc hp
    rw [List.foldl_cons]
    have h1 := apply_executed_order_inv today s hd (hall hd (List.mem_cons_self _ _)) hc hp
    exact ih _ (fun o ho => hall o (List.mem_cons_of_mem _ ho)) h1.1 h1.2

theorem process_symbol_orders_inv (today sym : String) (p : ℚ) (s : EngineState)
    (hc : 0 ≤ s.portfolio.cash) (hps : positions_nonneg s.portfolio)
    (hcp0 : 0 ≤ s.om.commission_pct) (hcp1 : s.om.commission_pct ≤ 1)
    (hsp0 : 0 ≤ s.om.slippage_pct) (hsp1 : s.om.slippage_pct ≤ 1)
    (hoq : orders_qty_nonneg s.om.orders) (hp : 0 ≤ p) :
    0 ≤ (process_symbol_orders today s sym p).1.portfolio.cash
    ∧ positions_nonneg (process_symbol_orders today s sym p).1.portfolio := by
  unfold process_symbol_orders process_market_data
  exact foldl_apply_executed_inv today _ _
    (process_pending_fills_ok s.om.commission_pct s.om.slippage_pct p sym
      hcp0 hcp1 hsp0 hsp1 hp s.om.pending_orders s.om.orders hoq) hc hps

theorem update_market_data_inv (today sym : String) (p : ℚ) (s : EngineState)
    (hcash : 0 ≤ s.portfolio.cash) (hpos : positions_nonneg s.portfolio) (hp : 0 ≤ p)
    (hcp0 : 0 ≤ s.om.commission_pct) (hcp1 : s.om.commission_pct ≤ 1)
    (hsp0 : 0 ≤ s.om.slippage_pct) (hsp1 : s.om.slippage_pct ≤ 1)
    (hoq : orders_qty_nonneg s.om.orders) :
    0 ≤ (update_market_data today s sym p).1.portfolio.cash
    ∧ positions_nonneg (update_market_data today s sym p).1.portfolio := by
  unfold update_market_data
  set s1 : EngineState :=
    { s with
      current_prices := alistSet s.current_prices sym p
      portfolio := update_position_prices s.portfolio [(sym, p)] } with hs1
  have hupp := update_position_prices_inv [(sym, p)] s.portfolio hcash hpos
  have h1 : 0 ≤ s1.portfolio.cash := by
    show 0 ≤ (update_position_prices s.portfolio [(sym, p)]).cash
    rw [hupp.1]
    exact hcash
  have h2 : positions_nonneg s1.portfolio := hupp.2
  have hinv := process_symbol_orders_inv today sym p s1 h1 h2 hcp0 hcp1 hsp0 hsp1 hoq hp
  by_cases hflag : (process_symbol_orders today s1 sym p).1.enable_risk_management = true
  · simp only [hflag, if_true]
    exact hinv
  · simp only [if_neg hflag]
    exact hinv

/-! ### Claim C1 -/

/-- Counterexample to claim C1 as stated: in c1Engine the pending market buy of
10 units costs 1000 at the tick price 100, ten times the 100 of available cash,
yet after the tick the order has reached the filled status (with cost plus
commission 1000 recorded on it); the portfolio itself is untouched — cash is
still 100 and no position was created — because the order manager marks the
order filled before the portfolio rejects the under-funded fill and the engine
swallows the error. -/
theorem update_market_data_insufficient_buy_marked_filled :
    (alistGet (update_market_data "D" c1Engine "A" 100).1.om.orders "ORD-1").map
        (fun o => (o.status, o.filled_quantity * o.avg_fill_price + o.commission))
      = some (OrderStatus.filled, 1000)
    ∧ (update_market_data "D" c1Engine "A" 100).1.portfolio.cash = 100
    ∧ (update_market_data "D" c1Engine "A" 100).1.portfolio.positions = []
    ∧ (100 : ℚ) < 1000 := by
  refine ⟨?_, ?_, ?_, by norm_num⟩ <;>
    norm_num [update_market_data, process_symbol_orders, process_market_data, process_pending,
      apply_executed_order, execute_order, should_fill_order, open_position,
      update_position_prices, update_drawdown, update_daily_pnl, get_portfolio_value,
      alistGet, alistSet, c1Engine, c1Order, abs_of_nonneg]

/-- Claim C1 (amended): an under-funded buy is never applied to the portfolio —
if a buy fill's cost |filled_quantity × fill price| + commission exceeds the
cash balance, applying it leaves the portfolio exactly unchanged (although the
order manager has already marked the order filled); an over-sized sell is
likewise never applied; and a price tick keeps cash ≥ 0 and every position
quantity ≥ 0, for any engine whose fee fractions lie in [0, 1], whose tick
price is nonnegative and whose booked orders have nonnegative quantity. -/
theorem engine_tick_safety (today sym : String) (p : ℚ) (s : EngineState)
    (hcash : 0 ≤ s.portfolio.cash) (hpos : positions_nonneg s.portfolio) (hp : 0 ≤ p)
    (hcp0 : 0 ≤ s.om.commission_pct) (hcp1 : s.om.commission_pct ≤ 1)
    (hsp0 : 0 ≤ s.om.slippage_pct) (hsp1 : s.om.slippage_pct ≤ 1)
    (hoq : orders_qty_nonneg s.om.orders) :
    (∀ (es : EngineState) (o : Order), o.side = OrderSide.buy →
        es.portfolio.cash < |o.filled_quantity * o.avg_fill_price| + o.commission →
        (apply_executed_order today es o).portfolio = es.portfolio)
    ∧ (∀ (es : EngineState) (o : Order) (pos : Position), o.side = OrderSide.sell →
        alistGet es.portfolio.positions o.symbol = some pos →
        pos.quantity < o.filled_quantity →
        (apply_executed_order today es o).portfolio = es.portfolio)
    ∧ 0 ≤ (update_market_data today s sym p).1.portfolio.cash
    ∧ positions_nonneg (update_market_data today s sym p).1.portfolio := by
  refine ⟨?_, ?_, ?_, ?_⟩
  · intro es o hside hover
    unfold apply_executed_order
    rw [if_pos hside]
    have hopen : open_position es.portfolio o.symbol o.filled_quantity o.avg_fill_price
        o.commission = (es.portfolio, .error .insufficientCash) := by
      unfold open_position
      rw [if_pos hover]
    rw [hopen]
  · intro es o pos hside hmem hover
    unfold apply_executed_order
    have hnb : ¬(o.side = OrderSide.buy) := by rw [hside]; simp
    rw [if_neg hnb]
    have hclose : close_position es.portfolio o.symbol o.filled_quantity o.avg_fill_price
        o.commission = (es.portfolio, .error .overClose) := by
      unfold close_position
      simp only [hmem]
      rw [if_pos hover]
    rw [hclose]
  · exact (update_market_data_inv today sym p s hcash hpos hp hcp0 hcp1 hsp0 hsp1 hoq).1
  · exact (update_market_data_inv today sym p s hcash hpos hp hcp0 hcp1 hsp0 hsp1 hoq).2

/-- Witness for the amended C1: the c1Engine state satisfies every hypothesis,
and the tick at price 100 leaves cash nonnegative with no negative position. -/
theorem engine_tick_safety_witness :
    0 ≤ (update_market_data "D" c1Engine "A" 100).1.portfolio.cash
    ∧ positions_nonneg (update_market_data "D" c1Engine "A" 100).1.portfolio := by
  have h := engine_tick_safety "D" "A" 100 c1Engine
    (by norm_num [c1Engine])
    (by intro pr hpr; simp [c1Engine] at hpr)
    (by norm_num)
    (by norm_num [c1Engine])
    (by norm_num [c1Engine])
    (by norm_num [c1Engine])
    (by norm_num [c1Engine])
    (by
      intro pr hpr
      simp only [c1Engine, List.mem_singleton] at hpr
      rw [hpr]
      norm_num [c1Order])
  exact ⟨h.2.2.1, h.2.2.2⟩

end TradeBgot
